import Mathlib

/-!
Verification of `src/remove_cards.py`.

The script defines two text transformations built on `re.sub(pattern, '', content,
flags=re.DOTALL)` with patterns of the fixed shape

  `\s* <start marker literal> .*? </div> \s* </div>`

and a driver `main` that reads one file, applies both transformations in order and
writes the result back, printing the three character counts.

The embedding below models, for exactly this pattern shape, the behaviour of a
backtracking regular-expression engine with Python's semantics:

* a match attempt at a position produces candidate consumed-lengths in the engine's
  backtracking preference order (greedy `\s*` tries the longest whitespace run
  first, lazy `.*?` tries the shortest extension first); the engine keeps the
  first candidate;
* `re.sub` with `count=0` scans left to right, replaces every non-overlapping
  leftmost match by the empty string, and resumes scanning at each match end.

Strings are embedded as `List Char`; `\s` is Python's Unicode whitespace class.
-/

/-- Python's `\s` character class for `str` patterns: ASCII whitespace plus the
Unicode whitespace code points recognised by CPython's `re` module. -/
def isPySpace (c : Char) : Bool :=
  let n := c.toNat
  n = 0x20 || n = 0x9 || n = 0xa || n = 0xd || n = 0xb || n = 0xc ||
  n = 0x1c || n = 0x1d || n = 0x1e || n = 0x1f || n = 0x85 || n = 0xa0 ||
  n = 0x1680 || (0x2000 ≤ n && n ≤ 0x200a) ||
  n = 0x2028 || n = 0x2029 || n = 0x202f || n = 0x205f || n = 0x3000

/-- Match the literal string `t` at the head of `cs`; on success return the
remainder of `cs` after `t`. This is the semantics of a literal in a regex. -/
def litAt : List Char → List Char → Option (List Char)
  | [], cs => some cs
  | _ :: _, [] => none
  | a :: t, c :: cs => if a = c then litAt t cs else none

/-- `occursIn t u` is true when the literal `t` occurs as a contiguous substring
of `u` (at any position, including the very end for empty `t`). -/
def occursIn (t : List Char) : List Char → Bool
  | [] => (litAt t []).isSome
  | c :: cs => (litAt t (c :: cs)).isSome || occursIn t cs

/-- Length of the maximal run of `\s` characters at the head of the string. -/
def wsRunLen : List Char → Nat
  | [] => 0
  | c :: cs => if isPySpace c then wsRunLen cs + 1 else 0

/-- Every character of the string is in the `\s` class. -/
def allWS : List Char → Bool
  | [] => true
  | c :: cs => isPySpace c && allWS cs

/-- The string is nonempty and its first character is not in the `\s` class. -/
def headNonWS : List Char → Bool
  | [] => false
  | c :: _ => !isPySpace c

/-- The string is empty or its last character is not in the `\s` class. -/
def endsNonWS : List Char → Bool
  | [] => true
  | c :: cs => if cs.isEmpty then !isPySpace c else endsNonWS cs

/-- `isSuffixB t u` decides whether `t` is a suffix of `u`. -/
def isSuffixB (t u : List Char) : Bool :=
  decide (t.length ≤ u.length) && (litAt t (u.drop (u.length - t.length))).isSome

/-- The descending list `[k, k-1, ..., 0]`: the order in which a greedy
quantifier tries consumed lengths when backtracking. -/
def downList : Nat → List Nat
  | 0 => [0]
  | k+1 => (k+1) :: downList k

/-- The ascending list `[i, i+1, ..., i+n-1]`: the order in which a lazy
quantifier tries consumed lengths. -/
def upList : Nat → Nat → List Nat
  | _, 0 => []
  | i, n+1 => i :: upList (i+1) n

/-- Concatenation of the images of `f`, in order: the sequence of candidate
results a backtracking engine enumerates. -/
def catMap (f : Nat → List Nat) : List Nat → List Nat
  | [] => []
  | a :: l => f a ++ catMap f l

/-- The literal `</div>` appearing twice at the end of both patterns
(src/remove_cards.py lines 11 and 20). -/
def dtag : List Char := "</div>".data

/-- The start-marker literal of `remove_optimization_result_section`
(src/remove_cards.py line 11). -/
def optMarker : List Char := "\x7b/* Right Column: Optimization Results */\x7d".data

/-- The start-marker literal of `remove_forecast_bands_section`
(src/remove_cards.py line 20). -/
def bandsMarker : List Char := "\x7b/* Unified Forecast Bands Card - Full Width */\x7d".data

/-- Candidate consumed lengths for the final literal `</div>` of the pattern. -/
def mDiv2 (cs : List Char) : List Nat :=
  match litAt dtag cs with
  | some _ => [dtag.length]
  | none => []

/-- Candidate consumed lengths for the pattern fragment `\s*</div>`:
the greedy `\s*` tries the longest whitespace run first. -/
def mWsDiv (cs : List Char) : List Nat :=
  catMap (fun j => (mDiv2 (cs.drop j)).map (fun r => j + r)) (downList (wsRunLen cs))

/-- Candidate consumed lengths for the closing fragment `</div>\s*</div>`. -/
def mClose (cs : List Char) : List Nat :=
  match litAt dtag cs with
  | some r => (mWsDiv r).map (fun v => dtag.length + v)
  | none => []

/-- A closing boundary (`</div>`, optional whitespace, `</div>`) matches at the
head of `cs`. -/
def closesAt (cs : List Char) : Bool :=
  !(mClose cs).isEmpty

/-- Candidate consumed lengths for `.*?</div>\s*</div>` under `re.DOTALL`:
the lazy `.*?` tries the shortest extension first. -/
def mLazyClose (cs : List Char) : List Nat :=
  catMap (fun j => (mClose (cs.drop j)).map (fun r => j + r)) (upList 0 (cs.length + 1))

/-- Candidate consumed lengths for `<marker>.*?</div>\s*</div>` where the start
marker `s` is matched verbatim. -/
def mMarkerTail (s : List Char) (cs : List Char) : List Nat :=
  match litAt s cs with
  | some r => (mLazyClose r).map (fun v => s.length + v)
  | none => []

/-- Candidate consumed lengths for the whole pattern
`\s*<marker>.*?</div>\s*</div>`, in backtracking preference order. -/
def mFull (s : List Char) (cs : List Char) : List Nat :=
  catMap (fun j => (mMarkerTail s (cs.drop j)).map (fun r => j + r)) (downList (wsRunLen cs))

/-- The length of the match the engine reports for an anchored attempt at the
head of `cs`: the first candidate in backtracking preference order. -/
def reFirstMatchLen (s : List Char) (cs : List Char) : Option Nat :=
  (mFull s cs).head?

/-- The consumed length of the anchored match at the head of `cs`, with `0`
standing for "no match".  The patterns of this script always consume their two
`</div>` literals when they match, so a real match never has length `0`; and
for a hypothetical zero-width match Python's `re.sub` with replacement `''`
would insert nothing, keep the character and advance, which is exactly what the
no-match branch of the scan loop does. -/
def firstLen (s : List Char) (cs : List Char) : Nat :=
  (reFirstMatchLen s cs).getD 0

/-- Fuel-indexed scan loop of `re.sub(pattern, '', content)`: at each position
try an anchored match; on success emit nothing and resume after the match,
otherwise emit the character and advance.  The fuel is an upper bound on the
number of scan steps; `reSubAll` supplies `cs.length`, which always suffices. -/
def subAllF (s : List Char) : Nat → List Char → List Char
  | 0, cs => cs
  | _, [] => []
  | fuel+1, c :: cs =>
    if 0 < firstLen s (c :: cs) then subAllF s fuel (cs.drop (firstLen s (c :: cs) - 1))
    else c :: subAllF s fuel cs

/-- `re.sub(r"\s*" + marker + r".*?</div>\s*</div>", '', cs, flags=re.DOTALL)`:
delete every non-overlapping leftmost match of the pattern with start marker
`s`. -/
def reSubAll (s : List Char) (cs : List Char) : List Char :=
  subAllF s cs.length cs

/-- src/remove_cards.py lines 8-15: remove the Optimization Result section. -/
def remove_optimization_result_section (content : String) : String :=
  String.mk (reSubAll optMarker content.data)

/-- src/remove_cards.py lines 17-24: remove the Forecast Bands section. -/
def remove_forecast_bands_section (content : String) : String :=
  String.mk (reSubAll bandsMarker content.data)

/-- src/remove_cards.py line 27: the fixed path read and written by `main`. -/
def file_path : String := "app/company/[ticker]/timing/page.tsx"

/-- The pure core of `main` (src/remove_cards.py lines 33-40): the two removals
in order, together with the three reported character counts (original size,
size after removing the optimization result, size after removing the forecast
bands). -/
def mainSteps (content : String) : String × Nat × Nat × Nat :=
  let afterOpt := remove_optimization_result_section content
  let afterBands := remove_forecast_bands_section afterOpt
  (afterBands, content.length, afterOpt.length, afterBands.length)

/-- The I/O skeleton of `main` (src/remove_cards.py lines 26-46): reading the
file may fail (`Except.error`, modelling a raised exception such as
`FileNotFoundError` or a decode error); only on a successful read is the
transformed content written back.  On a read failure the error propagates and
no write happens, so the result carries the error unchanged. -/
def mainOnFile (readResult : Except String String) : Except String String :=
  match readResult with
  | Except.error e => Except.error e
  | Except.ok content => Except.ok (mainSteps content).1

/-! ### Basic lemmas about `drop`, `take`, `litAt` and the whitespace helpers -/

theorem dropDropAdd (u : List Char) (i j : Nat) : (u.drop i).drop j = u.drop (i + j) := by
  induction i generalizing u with
  | zero => simp
  | succ i ih =>
    cases u with
    | nil => simp
    | cons c cs =>
      rw [show i + 1 + j = (i + j) + 1 by omega]
      simp

theorem dropLenApp : ∀ (x y : List Char), (x ++ y).drop x.length = y
  | [], _ => rfl
  | c :: x, y => by simp

theorem dropAddApp : ∀ (x y : List Char) (n : Nat), (x ++ y).drop (x.length + n) = y.drop n
  | [], _, _ => by simp
  | c :: x, y, n => by
    rw [show (c :: x).length + n = (x.length + n) + 1 by simp; omega]
    simp

theorem dropLeApp : ∀ (x y : List Char) (i : Nat), i ≤ x.length → (x ++ y).drop i = x.drop i ++ y
  | _, _, 0, _ => by simp
  | [], _, i+1, h => by simp at h
  | c :: x, y, i+1, h => by simpa using dropLeApp x y i (Nat.le_of_succ_le_succ h)

theorem takeLenApp : ∀ (x y : List Char), (x ++ y).take x.length = x
  | [], _ => rfl
  | c :: x, y => by simp

theorem dropAllNil : ∀ (u : List Char) (p : Nat), u.length ≤ p → u.drop p = []
  | [], _, _ => by simp
  | c :: u, 0, h => by simp at h
  | c :: u, p+1, h => by simpa using dropAllNil u p (Nat.le_of_succ_le_succ h)

theorem litAt_append_self : ∀ (t r : List Char), litAt t (t ++ r) = some r
  | [], _ => rfl
  | a :: t, r => by simpa [litAt] using litAt_append_self t r

theorem litAt_some_eq : ∀ (t u r : List Char), litAt t u = some r → u = t ++ r
  | [], u, r, h => by simpa [litAt] using Option.some.inj h
  | a :: t, [], r, h => by simp [litAt] at h
  | a :: t, c :: u, r, h => by
    by_cases hac : a = c
    · subst hac
      simp only [litAt, if_pos rfl] at h
      simpa using litAt_some_eq t u r h
    · simp [litAt, hac] at h

theorem occursIn_false_litAt : ∀ (t u : List Char), occursIn t u = false →
    ∀ p, litAt t (u.drop p) = none
  | t, [], h, p => by
    rw [List.drop_nil]
    simp only [occursIn] at h
    cases hl : litAt t [] with
    | none => rfl
    | some r => rw [hl] at h; simp at h
  | t, c :: cs, h, 0 => by
    simp only [occursIn, Bool.or_eq_false_iff] at h
    cases hl : litAt t (c :: cs) with
    | none => exact hl
    | some r => rw [hl] at h; simp at h
  | t, c :: cs, h, p+1 => by
    simp only [occursIn, Bool.or_eq_false_iff] at h
    simpa using occursIn_false_litAt t cs h.2 p

theorem wsRunLen_append_allWS : ∀ (w v : List Char), allWS w = true →
    wsRunLen (w ++ v) = w.length + wsRunLen v
  | [], v, _ => by simp [wsRunLen]
  | c :: w, v, h => by
    have h' : isPySpace c = true ∧ allWS w = true := by simpa [allWS] using h
    have e1 : wsRunLen ((c :: w) ++ v) = wsRunLen (w ++ v) + 1 := by
      simp [wsRunLen, h'.1]
    rw [e1, wsRunLen_append_allWS w v h'.2]
    simp only [List.length_cons]
    omega

theorem wsRunLen_headNonWS : ∀ (v : List Char), headNonWS v = true → wsRunLen v = 0
  | [], h => by simp [headNonWS] at h
  | c :: v, h => by
    have h' : isPySpace c = false := by simpa [headNonWS] using h
    simp [wsRunLen, h']

theorem headNonWS_append (s X : List Char) (h : headNonWS s = true) : headNonWS (s ++ X) = true := by
  cases s with
  | nil => simp [headNonWS] at h
  | cons c t => simpa [headNonWS] using h

theorem headNonWS_pos (s : List Char) (h : headNonWS s = true) : 0 < s.length := by
  cases s with
  | nil => simp [headNonWS] at h
  | cons c t => simp

theorem take_allWS_of_le_run : ∀ (u : List Char) (j : Nat), j ≤ wsRunLen u →
    allWS (u.take j) = true
  | _, 0, _ => by simp [allWS]
  | [], j+1, h => by simp [wsRunLen] at h
  | c :: u, j+1, h => by
    by_cases hc : isPySpace c = true
    · have h' : j ≤ wsRunLen u := by
        simp only [wsRunLen, hc, if_true] at h
        omega
      simp [allWS, hc, take_allWS_of_le_run u j h']
    · simp [wsRunLen, hc] at h

theorem allWS_take_le : ∀ (u : List Char) (j m : Nat), m ≤ j →
    allWS (u.take j) = true → allWS (u.take m) = true
  | _, _, 0, _, _ => by simp [allWS]
  | [], _, m+1, _, _ => by simp [allWS]
  | c :: u, 0, m+1, hm, _ => by omega
  | c :: u, j+1, m+1, hm, h => by
    have h' : isPySpace c = true ∧ allWS (u.take j) = true := by simpa [allWS] using h
    simp [allWS, h'.1, allWS_take_le u j m (Nat.le_of_succ_le_succ hm) h'.2]

theorem endsNonWS_no_allWS : ∀ (x : List Char), endsNonWS x = true →
    ∀ i, i < x.length → allWS (x.drop i) = true → False
  | [], _, i, hi, _ => by simp at hi
  | [c], h, 0, _, hall => by
    have hc : isPySpace c = false := by simpa [endsNonWS] using h
    have : isPySpace c = true := by simpa [allWS] using hall
    rw [hc] at this
    exact Bool.false_ne_true this
  | [c], _, i+1, hi, _ => by simp at hi
  | c :: c2 :: cs, h, 0, _, hall => by
    have h' : endsNonWS (c2 :: cs) = true := by simpa [endsNonWS] using h
    have hall' : allWS (c2 :: cs) = true := by
      have h2 : isPySpace c = true ∧ allWS (c2 :: cs) = true := by simpa [allWS] using hall
      exact h2.2
    exact endsNonWS_no_allWS (c2 :: cs) h' 0 (by simp) (by simpa using hall')
  | c :: c2 :: cs, h, i+1, hi, hall => by
    have h' : endsNonWS (c2 :: cs) = true := by simpa [endsNonWS] using h
    exact endsNonWS_no_allWS (c2 :: cs) h' i (by simpa using hi) (by simpa using hall)

/-! ### Lemmas about the candidate-list combinators -/

theorem mem_downList : ∀ (k j : Nat), j ∈ downList k → j ≤ k
  | 0, j, h => by simp [downList] at h; omega
  | k+1, j, h => by
    simp only [downList, List.mem_cons] at h
    cases h with
    | inl h => omega
    | inr h => exact Nat.le_succ_of_le (mem_downList k j h)

theorem catMap_nil_of : ∀ (f : Nat → List Nat) (l : List Nat), (∀ a ∈ l, f a = []) →
    catMap f l = []
  | _, [], _ => rfl
  | f, a :: l, h => by
    simp only [catMap, h a (by simp), List.nil_append]
    exact catMap_nil_of f l (fun b hb => h b (by simp [hb]))

theorem catMap_ne_nil : ∀ (f : Nat → List Nat) (l : List Nat), catMap f l ≠ [] →
    ∃ a, a ∈ l ∧ f a ≠ []
  | _, [], h => absurd rfl h
  | f, a :: l, h => by
    cases hfa : f a with
    | nil =>
      have h' : catMap f l ≠ [] := by simpa [catMap, hfa] using h
      obtain ⟨b, hb, hfb⟩ := catMap_ne_nil f l h'
      exact ⟨b, by simp [hb], hfb⟩
    | cons x xs => exact ⟨a, by simp, by simp [hfa]⟩

theorem head?_append_some (u v : List Nat) (x : Nat) (h : u.head? = some x) :
    (u ++ v).head? = some x := by
  cases u with
  | nil => simp at h
  | cons a u => simpa using h

theorem head?_map_add (g : Nat → Nat) (l : List Nat) (v : Nat) (h : l.head? = some v) :
    (l.map g).head? = some (g v) := by
  cases l with
  | nil => simp at h
  | cons a l =>
    have : a = v := by simpa using h
    simp [this]

theorem downCat_head (f : Nat → List Nat) (k v : Nat) (h : (f k).head? = some v) :
    (catMap f (downList k)).head? = some v := by
  cases k with
  | zero => exact head?_append_some _ _ _ h
  | succ k => exact head?_append_some _ _ _ h

theorem upCat_head : ∀ (k start n : Nat) (f : Nat → List Nat) (v : Nat), k < n →
    (∀ j, j < k → f (start + j) = []) → (f (start + k)).head? = some v →
    (catMap f (upList start n)).head? = some v
  | 0, start, n+1, f, v, _, _, h => by
    simp only [upList, catMap]
    exact head?_append_some _ _ _ (by simpa using h)
  | k+1, start, n+1, f, v, hk, hnil, h => by
    have h0 : f start = [] := by simpa using hnil 0 (by omega)
    simp only [upList, catMap, h0, List.nil_append]
    refine upCat_head k (start+1) n f v (by omega) (fun j hj => ?_) ?_
    · rw [show start + 1 + j = start + (j + 1) by omega]
      exact hnil (j+1) (by omega)
    · rw [show start + 1 + k = start + (k + 1) by omega]
      exact h
  | k, start, 0, f, v, hk, _, _ => absurd hk (by omega)

/-! ### Computation lemmas for the staged pattern matcher -/

theorem mClose_nil (u : List Char) (h : litAt dtag u = none) : mClose u = [] := by
  simp [mClose, h]

theorem mMarkerTail_nil (s u : List Char) (h : litAt s u = none) : mMarkerTail s u = [] := by
  simp [mMarkerTail, h]

theorem mFull_nil_of (s u : List Char)
    (h : ∀ j, j ≤ wsRunLen u → litAt s (u.drop j) = none) : mFull s u = [] := by
  apply catMap_nil_of
  intro a ha
  rw [mMarkerTail_nil s _ (h a (mem_downList _ _ ha))]
  rfl

theorem mDiv2_here (X : List Char) : mDiv2 (dtag ++ X) = [dtag.length] := by
  simp [mDiv2, litAt_append_self]

theorem mWsDiv_head (w2 X : List Char) (hw2 : allWS w2 = true) :
    (mWsDiv (w2 ++ (dtag ++ X))).head? = some (w2.length + dtag.length) := by
  unfold mWsDiv
  have hrun : wsRunLen (w2 ++ (dtag ++ X)) = w2.length := by
    rw [wsRunLen_append_allWS _ _ hw2, wsRunLen_headNonWS _ (headNonWS_append _ X (by decide))]
    omega
  rw [hrun]
  apply downCat_head
  simp only [dropLenApp, mDiv2_here]
  rfl

theorem mClose_head (w2 X : List Char) (hw2 : allWS w2 = true) :
    (mClose (dtag ++ (w2 ++ (dtag ++ X)))).head? =
      some (dtag.length + (w2.length + dtag.length)) := by
  simp only [mClose, litAt_append_self]
  exact head?_map_add _ _ _ (mWsDiv_head w2 X hw2)

theorem mLazyClose_head (M X : List Char) (v : Nat)
    (hM : ∀ p, p < M.length → litAt dtag ((M ++ X).drop p) = none)
    (hX : (mClose X).head? = some v) :
    (mLazyClose (M ++ X)).head? = some (M.length + v) := by
  unfold mLazyClose
  have hlt : M.length < (M ++ X).length + 1 := by
    simp [List.length_append]
    omega
  refine upCat_head M.length 0 ((M ++ X).length + 1) _ _ hlt (fun j hj => ?_) ?_
  · rw [Nat.zero_add, mClose_nil _ (hM j hj)]
    rfl
  · rw [Nat.zero_add]
    simp only [dropLenApp]
    exact head?_map_add _ _ _ hX

theorem mMarkerTail_head (s X : List Char) (v : Nat) (h : (mLazyClose X).head? = some v) :
    (mMarkerTail s (s ++ X)).head? = some (s.length + v) := by
  simp only [mMarkerTail, litAt_append_self]
  exact head?_map_add _ _ _ h

theorem mFull_head (s w X : List Char) (v : Nat) (hw : allWS w = true)
    (hs : headNonWS s = true) (h : (mMarkerTail s (s ++ X)).head? = some v) :
    (mFull s (w ++ (s ++ X))).head? = some (w.length + v) := by
  unfold mFull
  have hrun : wsRunLen (w ++ (s ++ X)) = w.length := by
    rw [wsRunLen_append_allWS _ _ hw, wsRunLen_headNonWS _ (headNonWS_append _ X hs)]
    omega
  rw [hrun]
  apply downCat_head
  simp only [dropLenApp]
  exact head?_map_add _ _ _ h

theorem anchored_head (s w M w2 R : List Char) (hs : headNonWS s = true)
    (hw : allWS w = true) (hw2 : allWS w2 = true)
    (hM : ∀ p, p < M.length → litAt dtag ((M ++ (dtag ++ (w2 ++ (dtag ++ R)))).drop p) = none) :
    (mFull s (w ++ (s ++ (M ++ (dtag ++ (w2 ++ (dtag ++ R))))))).head? =
      some (w.length + (s.length + (M.length + (dtag.length + (w2.length + dtag.length))))) := by
  apply mFull_head _ _ _ _ hw hs
  apply mMarkerTail_head
  apply mLazyClose_head _ _ _ hM
  exact mClose_head w2 R hw2

/-! ### Behaviour of the substitution scan loop -/

theorem firstLen_of_nil (s u : List Char) (h : mFull s u = []) : firstLen s u = 0 := by
  simp [firstLen, reFirstMatchLen, h]

theorem firstLen_of_head (s u : List Char) (v : Nat) (h : (mFull s u).head? = some v) :
    firstLen s u = v := by
  simp [firstLen, reFirstMatchLen, h]

theorem subAllF_cons_zero (s : List Char) (fuel : Nat) (c : Char) (cs : List Char)
    (h : firstLen s (c :: cs) = 0) :
    subAllF s (fuel+1) (c :: cs) = c :: subAllF s fuel cs := by
  have e : subAllF s (fuel+1) (c :: cs) =
      if 0 < firstLen s (c :: cs) then subAllF s fuel (cs.drop (firstLen s (c :: cs) - 1))
      else c :: subAllF s fuel cs := rfl
  rw [e, h]
  simp

theorem subAllF_cons_succ (s : List Char) (fuel : Nat) (c : Char) (cs : List Char) (n : Nat)
    (h : firstLen s (c :: cs) = n+1) :
    subAllF s (fuel+1) (c :: cs) = subAllF s fuel (cs.drop n) := by
  have e : subAllF s (fuel+1) (c :: cs) =
      if 0 < firstLen s (c :: cs) then subAllF s fuel (cs.drop (firstLen s (c :: cs) - 1))
      else c :: subAllF s fuel cs := rfl
  rw [e, h]
  simp

theorem subAllF_congr (s : List Char) (fuel : Nat) :
    ∀ (u : List Char), u.length ≤ fuel → subAllF s fuel u = reSubAll s u := by
  induction fuel using Nat.strong_induction_on with
  | _ fuel ih =>
    intro u hu
    cases fuel with
    | zero =>
      have h0 : u = [] := List.length_eq_zero.mp (Nat.le_zero.mp hu)
      subst h0
      rfl
    | succ fuel =>
      cases u with
      | nil => rfl
      | cons c cs =>
        have hlen : cs.length ≤ fuel := by simpa using hu
        have hR : reSubAll s (c :: cs) = subAllF s (cs.length + 1) (c :: cs) := rfl
        rw [hR]
        cases hm : firstLen s (c :: cs) with
        | zero =>
          rw [subAllF_cons_zero s fuel c cs hm, subAllF_cons_zero s cs.length c cs hm]
          rw [ih fuel (by omega) cs hlen, ih cs.length (by omega) cs (le_refl _)]
        | succ m =>
          rw [subAllF_cons_succ s fuel c cs m hm, subAllF_cons_succ s cs.length c cs m hm]
          have hd : (cs.drop m).length ≤ cs.length := by
            simp [List.length_drop]
          rw [ih fuel (by omega) (cs.drop m) (le_trans hd hlen),
            ih cs.length (by omega) (cs.drop m) hd]

theorem reSubAll_cons_zero (s : List Char) (c : Char) (cs : List Char)
    (h : firstLen s (c :: cs) = 0) :
    reSubAll s (c :: cs) = c :: reSubAll s cs := by
  show subAllF s ((c :: cs).length) (c :: cs) = _
  rw [List.length_cons, subAllF_cons_zero s cs.length c cs h]
  rfl

theorem reSubAll_cons_succ (s : List Char) (c : Char) (cs : List Char) (n : Nat)
    (h : firstLen s (c :: cs) = n+1) :
    reSubAll s (c :: cs) = reSubAll s (cs.drop n) := by
  show subAllF s ((c :: cs).length) (c :: cs) = _
  rw [List.length_cons, subAllF_cons_succ s cs.length c cs n h]
  exact subAllF_congr s cs.length (cs.drop n) (by simp [List.length_drop])

theorem reSubAll_step (s T : List Char) (n : Nat) (hn : 0 < n)
    (h : firstLen s T = n) : reSubAll s T = reSubAll s (T.drop n) := by
  cases T with
  | nil =>
    exfalso
    have hempty : mFull s [] = [] := by
      cases s with
      | nil => rfl
      | cons a t => rfl
    rw [firstLen_of_nil s [] hempty] at h
    omega
  | cons c cs =>
    cases n with
    | zero => omega
    | succ m =>
      rw [reSubAll_cons_succ s c cs m h]
      simp [List.drop_succ_cons]

theorem reSubAll_id_of_none (s : List Char) :
    ∀ (u : List Char), (∀ i, mFull s (u.drop i) = []) → reSubAll s u = u
  | [], _ => rfl
  | c :: cs, h => by
    have h0 : firstLen s (c :: cs) = 0 :=
      firstLen_of_nil s (c :: cs) (by simpa using h 0)
    rw [reSubAll_cons_zero s c cs h0]
    rw [reSubAll_id_of_none s cs (fun i => by simpa using h (i+1))]

theorem scanThrough (s : List Char) :
    ∀ (X T : List Char), (∀ i, i < X.length → mFull s ((X ++ T).drop i) = []) →
      reSubAll s (X ++ T) = X ++ reSubAll s T
  | [], _, _ => by simp
  | a :: X, T, h => by
    have h0 : firstLen s (a :: (X ++ T)) = 0 :=
      firstLen_of_nil s _ (by simpa using h 0 (by simp))
    show reSubAll s (a :: (X ++ T)) = a :: X ++ reSubAll s T
    rw [reSubAll_cons_zero s a (X ++ T) h0]
    rw [scanThrough s X T (fun i hi => by simpa using h (i+1) (by simpa using Nat.succ_lt_succ hi))]
    rfl

theorem subAllF_length_le (s : List Char) :
    ∀ (fuel : Nat) (u : List Char), (subAllF s fuel u).length ≤ u.length
  | 0, u => by
    cases u with
    | nil => exact le_refl _
    | cons c cs => exact le_refl _
  | fuel+1, [] => le_refl _
  | fuel+1, c :: cs => by
    cases hm : firstLen s (c :: cs) with
    | zero =>
      rw [subAllF_cons_zero s fuel c cs hm]
      have := subAllF_length_le s fuel cs
      simp only [List.length_cons]
      omega
    | succ m =>
      rw [subAllF_cons_succ s fuel c cs m hm]
      have h1 := subAllF_length_le s fuel (cs.drop m)
      have h2 : (cs.drop m).length ≤ cs.length := by simp [List.length_drop]
      simp only [List.length_cons]
      omega

/-! ### The main removal lemma: one span is deleted, the prefix is kept -/

theorem core_removal (s A₀ w M w2 R : List Char)
    (hs : headNonWS s = true) (h0 : endsNonWS A₀ = true)
    (hw : allWS w = true) (hw2 : allWS w2 = true)
    (hA : ∀ q, q < A₀.length →
      litAt s ((A₀ ++ (w ++ (s ++ (M ++ (dtag ++ (w2 ++ (dtag ++ R))))))).drop q) = none)
    (hM : ∀ p, p < M.length → litAt dtag ((M ++ (dtag ++ (w2 ++ (dtag ++ R)))).drop p) = none) :
    reSubAll s (A₀ ++ (w ++ (s ++ (M ++ (dtag ++ (w2 ++ (dtag ++ R))))))) =
      A₀ ++ reSubAll s R := by
  have hscan : ∀ i, i < A₀.length →
      mFull s ((A₀ ++ (w ++ (s ++ (M ++ (dtag ++ (w2 ++ (dtag ++ R))))))).drop i) = [] := by
    intro i hi
    apply mFull_nil_of
    intro j hj
    rw [dropDropAdd]
    by_cases hij : i + j < A₀.length
    · exact hA (i + j) hij
    · exfalso
      push_neg at hij
      have hws := take_allWS_of_le_run _ j hj
      have hj2 : A₀.length - i ≤ j := by omega
      have h1 := allWS_take_le _ j (A₀.length - i) hj2 hws
      have hdi : (A₀ ++ (w ++ (s ++ (M ++ (dtag ++ (w2 ++ (dtag ++ R))))))).drop i =
          A₀.drop i ++ (w ++ (s ++ (M ++ (dtag ++ (w2 ++ (dtag ++ R)))))) :=
        dropLeApp _ _ i (by omega)
      have hlen : (A₀.drop i).length = A₀.length - i := by simp [List.length_drop]
      rw [hdi, ← hlen, takeLenApp] at h1
      exact endsNonWS_no_allWS A₀ h0 i hi h1
  rw [scanThrough s A₀ _ hscan]
  have hhead := anchored_head s w M w2 R hs hw hw2 hM
  have hflen : firstLen s (w ++ (s ++ (M ++ (dtag ++ (w2 ++ (dtag ++ R)))))) =
      w.length + (s.length + (M.length + (dtag.length + (w2.length + dtag.length)))) :=
    firstLen_of_head s _ _ hhead
  have hs1 : 0 < s.length := headNonWS_pos s hs
  rw [reSubAll_step s _ _ (by omega) hflen]
  rw [dropAddApp, dropAddApp, dropAddApp, dropAddApp, dropAddApp, dropLenApp]

/-- Delete one well-delimited span whose remainder `B` contains no further
occurrence of the start marker: the result is the prefix before the span's
leading whitespace followed by `B` unchanged. -/
theorem span_core (s A₀ w M w2 B : List Char)
    (hs : headNonWS s = true) (h0 : endsNonWS A₀ = true)
    (hw : allWS w = true) (hw2 : allWS w2 = true)
    (hA : ∀ q, q < A₀.length →
      litAt s ((A₀ ++ (w ++ (s ++ (M ++ (dtag ++ (w2 ++ (dtag ++ B))))))).drop q) = none)
    (hM : ∀ p, p < M.length → litAt dtag ((M ++ (dtag ++ (w2 ++ (dtag ++ B)))).drop p) = none)
    (hB : ∀ p, p ≤ B.length → litAt s (B.drop p) = none) :
    reSubAll s (A₀ ++ (w ++ (s ++ (M ++ (dtag ++ (w2 ++ (dtag ++ B))))))) = A₀ ++ B := by
  rw [core_removal s A₀ w M w2 B hs h0 hw hw2 hA hM]
  congr 1
  apply reSubAll_id_of_none
  intro i
  apply mFull_nil_of
  intro j hj
  rw [dropDropAdd]
  by_cases hle : i + j ≤ B.length
  · exact hB (i + j) hle
  · rw [dropAllNil B (i + j) (by omega)]
    cases s with
    | nil => simp [headNonWS] at hs
    | cons a t => rfl

/-! ### Inversion: a successful match needs the marker and a closing boundary -/

theorem mFull_inv (s u : List Char) (h : mFull s u ≠ []) :
    ∃ j, j ≤ wsRunLen u ∧ mMarkerTail s (u.drop j) ≠ [] := by
  obtain ⟨a, ha, hfa⟩ := catMap_ne_nil _ _ h
  refine ⟨a, mem_downList _ _ ha, fun h0 => hfa ?_⟩
  rw [h0]
  rfl

theorem mMarkerTail_inv (s u : List Char) (h : mMarkerTail s u ≠ []) :
    ∃ r, litAt s u = some r ∧ mLazyClose r ≠ [] := by
  unfold mMarkerTail at h
  cases hl : litAt s u with
  | none => rw [hl] at h; simp at h
  | some r =>
    rw [hl] at h
    refine ⟨r, rfl, fun h0 => h ?_⟩
    simp [h0]

theorem mLazyClose_inv (u : List Char) (h : mLazyClose u ≠ []) :
    ∃ k, mClose (u.drop k) ≠ [] := by
  obtain ⟨a, _, hfa⟩ := catMap_ne_nil _ _ h
  refine ⟨a, fun h0 => hfa ?_⟩
  rw [h0]
  rfl

/-- If the start marker occurs only at the marked position and no closing
boundary occurs from the marker onwards, then no anchored match succeeds
anywhere, and the scan returns the document unchanged. -/
theorem no_close_no_match (s A R : List Char)
    (hA : ∀ q, q < A.length → litAt s ((A ++ (s ++ R)).drop q) = none)
    (hC : ∀ q, q ≤ (s ++ R).length → closesAt ((s ++ R).drop q) = false) :
    reSubAll s (A ++ (s ++ R)) = A ++ (s ++ R) := by
  apply reSubAll_id_of_none
  intro i
  by_contra hne
  obtain ⟨j, hj, hmt⟩ := mFull_inv s _ hne
  rw [dropDropAdd] at hmt
  obtain ⟨r, hlit, hlz⟩ := mMarkerTail_inv s _ hmt
  obtain ⟨k, hcl⟩ := mLazyClose_inv r hlz
  by_cases hq : i + j < A.length
  · rw [hA (i + j) hq] at hlit
    simp at hlit
  · push_neg at hq
    have hr : r = (A ++ (s ++ R)).drop ((i + j) + s.length) := by
      have heq := litAt_some_eq s _ r hlit
      calc r = (s ++ r).drop s.length := (dropLenApp s r).symm
        _ = ((A ++ (s ++ R)).drop (i + j)).drop s.length := by rw [← heq]
        _ = (A ++ (s ++ R)).drop ((i + j) + s.length) := dropDropAdd _ _ _
    have hcl' : mClose ((A ++ (s ++ R)).drop (((i + j) + s.length) + k)) ≠ [] := by
      rw [← dropDropAdd, ← hr]
      exact hcl
    have hsplit : (A ++ (s ++ R)).drop (((i + j) + s.length) + k) =
        (s ++ R).drop ((((i + j) + s.length) + k) - A.length) := by
      obtain ⟨m, hm⟩ : ∃ m, ((i + j) + s.length) + k = A.length + m :=
        ⟨(((i + j) + s.length) + k) - A.length, by omega⟩
      rw [hm, dropAddApp, Nat.add_sub_cancel_left]
    rw [hsplit] at hcl'
    by_cases hm : (((i + j) + s.length) + k) - A.length ≤ (s ++ R).length
    · apply hcl'
      have h2 := hC _ hm
      unfold closesAt at h2
      have h3 : (mClose ((s ++ R).drop ((((i + j) + s.length) + k) - A.length))).isEmpty
          = true := by simpa using h2
      cases hval : mClose ((s ++ R).drop ((((i + j) + s.length) + k) - A.length)) with
      | nil => rfl
      | cons x xs => rw [hval] at h3; simp at h3
    · apply hcl'
      rw [dropAllNil _ _ (by omega)]
      rfl

/-- When the start marker does not occur in the document, the scan leaves the
document unchanged. -/
theorem remover_id_of_no_marker (s : List Char) (D : String)
    (h : occursIn s D.data = false) : String.mk (reSubAll s D.data) = D := by
  have hid : reSubAll s D.data = D.data := by
    apply reSubAll_id_of_none
    intro i
    apply mFull_nil_of
    intro j _
    rw [dropDropAdd]
    exact occursIn_false_litAt s D.data h (i + j)
  rw [hid]

/-! ### The claims -/

/-- Counterexample to claim C1: on a document with two matching spans of
`remove_optimization_result_section`, the portion after the end of the first
matched span (which still contains the second marker and its block) is not
returned unchanged — both spans are deleted, and the claimed preserved portion
is not even a suffix of the output. -/
theorem C1_counterexample :
    remove_optimization_result_section "a\x7b/* Right Column: Optimization Results */\x7dx</div></div>b\x7b/* Right Column: Optimization Results */\x7dy</div></div>c" = "abc" ∧
    isSuffixB "b\x7b/* Right Column: Optimization Results */\x7dy</div></div>c".data "abc".data = false := by
  decide

/-- Claim C1 (amended): `re.sub` deletes every non-overlapping matching span,
not only the first.  For a document consisting of two well-delimited blocks —
each block being a run of whitespace, the start marker, a body in which no
occurrence of the end literal begins, and a closing boundary made of the end
literal, whitespace and the end literal again — where the start marker occurs
nowhere except at the two block positions, both removers delete both spans
together with the whitespace preceding each marker, keeping everything else. -/
theorem C1_amended (s A₀ w₁ M₁ v₁ A₂ w₂ M₂ v₂ B : List Char)
    (hs : headNonWS s = true)
    (h0 : endsNonWS A₀ = true) (hw₁ : allWS w₁ = true) (hv₁ : allWS v₁ = true)
    (h2 : endsNonWS A₂ = true) (hw₂ : allWS w₂ = true) (hv₂ : allWS v₂ = true)
    (hA₁ : ∀ q, q < A₀.length → litAt s ((A₀ ++ (w₁ ++ (s ++ (M₁ ++ (dtag ++ (v₁ ++ (dtag ++ (A₂ ++ (w₂ ++ (s ++ (M₂ ++ (dtag ++ (v₂ ++ (dtag ++ B)))))))))))))).drop q) = none)
    (hM₁ : ∀ p, p < M₁.length → litAt dtag ((M₁ ++ (dtag ++ (v₁ ++ (dtag ++ (A₂ ++ (w₂ ++ (s ++ (M₂ ++ (dtag ++ (v₂ ++ (dtag ++ B))))))))))).drop p) = none)
    (hA₂ : ∀ q, q < A₂.length → litAt s ((A₂ ++ (w₂ ++ (s ++ (M₂ ++ (dtag ++ (v₂ ++ (dtag ++ B))))))).drop q) = none)
    (hM₂ : ∀ p, p < M₂.length → litAt dtag ((M₂ ++ (dtag ++ (v₂ ++ (dtag ++ B)))).drop p) = none)
    (hB : ∀ p, p ≤ B.length → litAt s (B.drop p) = none) :
    (s = optMarker →
      remove_optimization_result_section (String.mk (A₀ ++ (w₁ ++ (s ++ (M₁ ++ (dtag ++ (v₁ ++ (dtag ++ (A₂ ++ (w₂ ++ (s ++ (M₂ ++ (dtag ++ (v₂ ++ (dtag ++ B))))))))))))))) =
        String.mk (A₀ ++ (A₂ ++ B))) ∧
    (s = bandsMarker →
      remove_forecast_bands_section (String.mk (A₀ ++ (w₁ ++ (s ++ (M₁ ++ (dtag ++ (v₁ ++ (dtag ++ (A₂ ++ (w₂ ++ (s ++ (M₂ ++ (dtag ++ (v₂ ++ (dtag ++ B))))))))))))))) =
        String.mk (A₀ ++ (A₂ ++ B))) := by
  have hcore : reSubAll s (A₀ ++ (w₁ ++ (s ++ (M₁ ++ (dtag ++ (v₁ ++ (dtag ++ (A₂ ++ (w₂ ++ (s ++ (M₂ ++ (dtag ++ (v₂ ++ (dtag ++ B)))))))))))))) = A₀ ++ (A₂ ++ B) := by
    rw [core_removal s A₀ w₁ M₁ v₁ _ hs h0 hw₁ hv₁ hA₁ hM₁]
    rw [span_core s A₂ w₂ M₂ v₂ B hs h2 hw₂ hv₂ hA₂ hM₂ hB]
  constructor
  · intro he
    subst he
    exact congrArg String.mk hcore
  · intro he
    subst he
    exact congrArg String.mk hcore

/-- Witness for C1 (amended), with the optimization-results remover, two
concrete blocks and tail "c": both blocks disappear. -/
theorem C1_witness :
    remove_optimization_result_section (String.mk ("a".data ++ ("\n".data ++ (optMarker ++ ("x".data ++ (dtag ++ ("\n".data ++ (dtag ++ ("b".data ++ ("".data ++ (optMarker ++ ("y".data ++ (dtag ++ ("".data ++ (dtag ++ "c".data))))))))))))))) =
      String.mk ("a".data ++ ("b".data ++ "c".data)) :=
  (C1_amended optMarker "a".data "\n".data "x".data "\n".data "b".data "".data "y".data
    "".data "c".data (by decide) (by decide) (by decide) (by decide) (by decide) (by decide)
    (by decide) (by decide) (by decide) (by decide) (by decide) (by decide)).1 rfl

/-- Counterexample to claim C2: take A = "a", M = "x</div>", e = "</div></div>"
and B = "b".  M contains no occurrence of e and the start marker occurs nowhere
else, yet the lazy tail of the pattern already matches at the "</div>" inside
M (its closing "</div>" being the first half of e), so the deletion stops
inside e and the result is "a</div>b", not A + B = "ab". -/
theorem C2_counterexample :
    remove_optimization_result_section "a\x7b/* Right Column: Optimization Results */\x7dx</div></div></div>b" = "a</div>b" ∧
    ("a</div>b" : String) ≠ "ab" := by
  decide

/-- Claim C2 (amended): the deleted span ends at the regex boundary
`</div>` + whitespace + `</div>`, not at a single end-marker literal.  For
every decomposition D = A₀ + w + s + M + "</div>" + w₂ + "</div>" + B where
w is the trailing whitespace of the prefix (A₀ ends in a non-whitespace
character), w₂ is whitespace, no occurrence of "</div>" begins inside M, and
the start marker s occurs neither before the marked position nor in B, the
remover returns A₀ + B: the span together with the whitespace before the
marker is deleted and everything else is preserved. -/
theorem C2_amended (s A₀ w M w2 B : List Char)
    (hs : headNonWS s = true) (h0 : endsNonWS A₀ = true)
    (hw : allWS w = true) (hw2 : allWS w2 = true)
    (hA : ∀ q, q < A₀.length →
      litAt s ((A₀ ++ (w ++ (s ++ (M ++ (dtag ++ (w2 ++ (dtag ++ B))))))).drop q) = none)
    (hM : ∀ p, p < M.length → litAt dtag ((M ++ (dtag ++ (w2 ++ (dtag ++ B)))).drop p) = none)
    (hB : ∀ p, p ≤ B.length → litAt s (B.drop p) = none) :
    (s = optMarker →
      remove_optimization_result_section (String.mk (A₀ ++ (w ++ (s ++ (M ++ (dtag ++ (w2 ++ (dtag ++ B)))))))) = String.mk (A₀ ++ B)) ∧
    (s = bandsMarker →
      remove_forecast_bands_section (String.mk (A₀ ++ (w ++ (s ++ (M ++ (dtag ++ (w2 ++ (dtag ++ B)))))))) = String.mk (A₀ ++ B)) := by
  have hcore := span_core s A₀ w M w2 B hs h0 hw hw2 hA hM hB
  constructor
  · intro he
    subst he
    exact congrArg String.mk hcore
  · intro he
    subst he
    exact congrArg String.mk hcore

/-- Witness for C2 (amended) at a concrete well-delimited document. -/
theorem C2_witness :
    remove_optimization_result_section (String.mk ("head".data ++ ("\n".data ++ (optMarker ++ ("mid".data ++ (dtag ++ ("\n".data ++ (dtag ++ "tail".data)))))))) =
      String.mk ("head".data ++ "tail".data) :=
  (C2_amended optMarker "head".data "\n".data "mid".data "\n".data "tail".data
    (by decide) (by decide) (by decide) (by decide) (by decide) (by decide) (by decide)).1 rfl

/-- Counterexample to claim C3: after the start marker the text
"x</div> </div>y</div></div>z</div></div>w" contains two verbatim occurrences
of the end-marker text "</div></div>", at offsets 15 and 28 (the first two
conjuncts exhibit them), so the original claim applies.  The claim predicts
deletion exactly through the nearest occurrence, which would give
"hz</div></div>w"; but the lazy tail of the pattern already matches at the
earlier whitespace-separated boundary "</div> </div>" inside the body, so the
remover returns "hy</div></div>z</div></div>w" instead. -/
theorem C3_counterexample :
    (litAt "</div></div>".data ("x</div> </div>y</div></div>z</div></div>w".data.drop 15)).isSome = true ∧
    (litAt "</div></div>".data ("x</div> </div>y</div></div>z</div></div>w".data.drop 28)).isSome = true ∧
    remove_optimization_result_section "h\x7b/* Right Column: Optimization Results */\x7dx</div> </div>y</div></div>z</div></div>w" = "hy</div></div>z</div></div>w" ∧
    ("hy</div></div>z</div></div>w" : String) ≠ "hz</div></div>w" := by
  decide

/-- Claim C3 (amended): deletion is non-greedy with respect to the closing
boundary `</div>` + whitespace + `</div>`: it stops at the first position
after the marker where that boundary matches, even when further occurrences of
the end literal follow in the remainder B, and B is then preserved verbatim —
provided no occurrence of "</div>" begins inside the block body M and the
start marker does not occur in B or before the span. -/
theorem C3_amended (s A₀ w M w2 B : List Char)
    (hs : headNonWS s = true) (h0 : endsNonWS A₀ = true)
    (hw : allWS w = true) (hw2 : allWS w2 = true)
    (hA : ∀ q, q < A₀.length →
      litAt s ((A₀ ++ (w ++ (s ++ (M ++ (dtag ++ (w2 ++ (dtag ++ B))))))).drop q) = none)
    (hM : ∀ p, p < M.length → litAt dtag ((M ++ (dtag ++ (w2 ++ (dtag ++ B)))).drop p) = none)
    (hB : ∀ p, p ≤ B.length → litAt s (B.drop p) = none)
    (_hBd : occursIn dtag B = true) :
    (s = optMarker →
      remove_optimization_result_section (String.mk (A₀ ++ (w ++ (s ++ (M ++ (dtag ++ (w2 ++ (dtag ++ B)))))))) = String.mk (A₀ ++ B)) ∧
    (s = bandsMarker →
      remove_forecast_bands_section (String.mk (A₀ ++ (w ++ (s ++ (M ++ (dtag ++ (w2 ++ (dtag ++ B)))))))) = String.mk (A₀ ++ B)) := by
  have hcore := span_core s A₀ w M w2 B hs h0 hw hw2 hA hM hB
  constructor
  · intro he
    subst he
    exact congrArg String.mk hcore
  · intro he
    subst he
    exact congrArg String.mk hcore

/-- Witness for C3 (amended): the remainder contains a later "</div>"
occurrence and is preserved verbatim. -/
theorem C3_witness :
    remove_optimization_result_section (String.mk ("h".data ++ ("\n".data ++ (optMarker ++ ("x".data ++ (dtag ++ (" ".data ++ (dtag ++ "z</div>q".data)))))))) =
      String.mk ("h".data ++ "z</div>q".data) :=
  (C3_amended optMarker "h".data "\n".data "x".data " ".data "z</div>q".data
    (by decide) (by decide) (by decide) (by decide) (by decide) (by decide) (by decide)
    (by decide)).1 rfl

/-- Counterexample to claim C4: the code tolerates whitespace variation inside
the closing boundary.  This document contains no contiguous occurrence of the
end-marker text "</div></div>" after the marker (the two "</div>" are
separated by a newline), so under the claim no span would be deleted; the
remover nevertheless deletes the span. -/
theorem C4_counterexample :
    remove_optimization_result_section "a\x7b/* Right Column: Optimization Results */\x7dx</div>\n</div>b" = "ab" ∧
    ("ab" : String) ≠ "a\x7b/* Right Column: Optimization Results */\x7dx</div>\n</div>b" := by
  decide

/-- Claim C4 (amended): the start marker and each of the two "</div>" literals
are matched verbatim (exact code points, no tolerance inside any literal), but
between the two "</div>" literals the pattern accepts an arbitrary whitespace
run.  Part one: for every whitespace string w₂ the boundary
"</div>" + w₂ + "</div>" closes the span.  Parts two and three: one changed
character inside the marker (lowercase "right") or inside the first closing
literal ("</Div>") prevents any deletion. -/
theorem C4_amended :
    (∀ w2 : List Char, allWS w2 = true →
      remove_optimization_result_section (String.mk ("a".data ++ (optMarker ++ ("x".data ++ (dtag ++ (w2 ++ (dtag ++ "b".data))))))) =
        String.mk ("a".data ++ "b".data)) ∧
    remove_optimization_result_section "a\x7b/* right Column: Optimization Results */\x7dx</div></div>b" = "a\x7b/* right Column: Optimization Results */\x7dx</div></div>b" ∧
    remove_optimization_result_section "a\x7b/* Right Column: Optimization Results */\x7dx</Div></div>b" = "a\x7b/* Right Column: Optimization Results */\x7dx</Div></div>b" := by
  refine ⟨?_, by decide, by decide⟩
  intro w2 hw2
  have hA : ∀ q, q < ("a".data).length →
      litAt optMarker (("a".data ++ ([] ++ (optMarker ++ ("x".data ++ (dtag ++ (w2 ++ (dtag ++ "b".data))))))).drop q) = none := by
    intro q hq
    have h1 : ("a".data).length = 1 := rfl
    have h2 : q = 0 := by omega
    subst h2
    rfl
  have hM : ∀ p, p < ("x".data).length →
      litAt dtag (("x".data ++ (dtag ++ (w2 ++ (dtag ++ "b".data)))).drop p) = none := by
    intro p hp
    have h1 : ("x".data).length = 1 := rfl
    have h2 : p = 0 := by omega
    subst h2
    rfl
  have hB : ∀ p, p ≤ ("b".data).length → litAt optMarker (("b".data).drop p) = none := by
    intro p hp
    have h1 : ("b".data).length = 1 := rfl
    rw [h1] at hp
    rcases p with _ | _ | p
    · rfl
    · rfl
    · omega
  have hcore := span_core optMarker "a".data [] "x".data w2 "b".data
    (by decide) (by decide) rfl hw2 hA hM hB
  exact congrArg String.mk hcore

/-- Witness for C4 (amended), part one, at the concrete whitespace run
consisting of one newline. -/
theorem C4_witness :
    remove_optimization_result_section (String.mk ("a".data ++ (optMarker ++ ("x".data ++ (dtag ++ ("\n".data ++ (dtag ++ "b".data))))))) =
      String.mk ("a".data ++ "b".data) :=
  C4_amended.1 "\n".data (by decide)

/-- Claim C5: if the start-marker text does not occur in the document, the
remover returns the document unchanged (and, being a total function, raises no
error); consequently a second application to an already-reduced document in
which the marker no longer occurs is a no-op.  Stated for both removers. -/
theorem C5_theorem :
    (∀ D : String, occursIn optMarker D.data = false →
      remove_optimization_result_section D = D) ∧
    (∀ D : String, occursIn bandsMarker D.data = false →
      remove_forecast_bands_section D = D) ∧
    (∀ D : String, occursIn optMarker (remove_optimization_result_section D).data = false →
      remove_optimization_result_section (remove_optimization_result_section D) =
        remove_optimization_result_section D) ∧
    (∀ D : String, occursIn bandsMarker (remove_forecast_bands_section D).data = false →
      remove_forecast_bands_section (remove_forecast_bands_section D) =
        remove_forecast_bands_section D) :=
  ⟨fun D h => remover_id_of_no_marker optMarker D h,
   fun D h => remover_id_of_no_marker bandsMarker D h,
   fun D h => remover_id_of_no_marker optMarker (remove_optimization_result_section D) h,
   fun D h => remover_id_of_no_marker bandsMarker (remove_forecast_bands_section D) h⟩

/-- Witness for C5: a document without markers is unchanged, and a second
application after reduction is a no-op. -/
theorem C5_witness :
    remove_optimization_result_section "hello world" = "hello world" ∧
    remove_forecast_bands_section (remove_forecast_bands_section "abc") =
      remove_forecast_bands_section "abc" :=
  ⟨C5_theorem.1 "hello world" (by decide), C5_theorem.2.2.2 "abc" (by decide)⟩

/-- Claim C6: on the concrete document of Scenario 1,
removing the optimization-results block yields exactly "head\ntail": the
newline before the marker is absorbed by the leading whitespace of the
pattern, and the newline before "tail" survives because the match ends at the
second "</div>". -/
theorem C6_theorem :
    remove_optimization_result_section "head\n\x7b/* Right Column: Optimization Results */\x7d\nfoo\n</div>\n</div>\ntail" = "head\ntail" := by
  decide

/-- Claim C7: the driver applies the optimization-results removal first and
the forecast-bands removal second; the content it writes back is the
composition of the two removers, and the three reported sizes are the
character lengths of the original content, of the content after the first
removal, and of the content after the second removal, in that order. -/
theorem C7_theorem (C : String) :
    (mainSteps C).1 = remove_forecast_bands_section (remove_optimization_result_section C) ∧
    (mainSteps C).2.1 = C.length ∧
    (mainSteps C).2.2.1 = (remove_optimization_result_section C).length ∧
    (mainSteps C).2.2.2 =
      (remove_forecast_bands_section (remove_optimization_result_section C)).length :=
  ⟨rfl, rfl, rfl, rfl⟩

/-- Claim C8: in the `Except` embedding of `main`'s I/O skeleton, a failed
read propagates the error unchanged and no transformed content is produced,
so nothing is written and the file keeps its prior content; only a
successful read leads to the transformed content being written. -/
theorem C8_theorem :
    (∀ e : String, mainOnFile (Except.error e) = Except.error e) ∧
    (∀ C : String, mainOnFile (Except.ok C) =
      Except.ok (remove_forecast_bands_section (remove_optimization_result_section C))) :=
  ⟨fun _ => rfl, fun _ => rfl⟩

/-- Claim C9: when a start marker occurs but no closing boundary ("</div>",
optionally separated by whitespace from a second "</div>") occurs anywhere
from the marker onwards, the remover leaves the document unchanged — it
neither deletes to the end of the document nor fails.  The prefix condition
says the marked occurrence is the first one. -/
theorem C9_theorem (A R : List Char)
    (hA₁ : ∀ q, q < A.length → litAt optMarker ((A ++ (optMarker ++ R)).drop q) = none)
    (hC₁ : ∀ q, q ≤ (optMarker ++ R).length → closesAt ((optMarker ++ R).drop q) = false)
    (hA₂ : ∀ q, q < A.length → litAt bandsMarker ((A ++ (bandsMarker ++ R)).drop q) = none)
    (hC₂ : ∀ q, q ≤ (bandsMarker ++ R).length → closesAt ((bandsMarker ++ R).drop q) = false) :
    remove_optimization_result_section (String.mk (A ++ (optMarker ++ R))) =
      String.mk (A ++ (optMarker ++ R)) ∧
    remove_forecast_bands_section (String.mk (A ++ (bandsMarker ++ R))) =
      String.mk (A ++ (bandsMarker ++ R)) :=
  ⟨congrArg String.mk (no_close_no_match optMarker A R hA₁ hC₁),
   congrArg String.mk (no_close_no_match bandsMarker A R hA₂ hC₂)⟩

/-- Witness for C9: a marker followed by "x" and no closing boundary at all. -/
theorem C9_witness :
    remove_optimization_result_section (String.mk ("a".data ++ (optMarker ++ "x".data))) =
      String.mk ("a".data ++ (optMarker ++ "x".data)) ∧
    remove_forecast_bands_section (String.mk ("a".data ++ (bandsMarker ++ "x".data))) =
      String.mk ("a".data ++ (bandsMarker ++ "x".data)) :=
  C9_theorem "a".data "x".data (by decide) (by decide) (by decide) (by decide)

/-- Claim C10: each remover only deletes text, so its output is never longer
than its input, and the three sizes reported by the driver form a
non-increasing sequence. -/
theorem C10_theorem (D : String) :
    (remove_optimization_result_section D).length ≤ D.length ∧
    (remove_forecast_bands_section D).length ≤ D.length ∧
    (mainSteps D).2.2.1 ≤ (mainSteps D).2.1 ∧
    (mainSteps D).2.2.2 ≤ (mainSteps D).2.2.1 := by
  have h1 : ∀ (s : List Char) (C : String), (String.mk (reSubAll s C.data)).length ≤ C.length := by
    intro s C
    show (reSubAll s C.data).length ≤ C.data.length
    exact subAllF_length_le s _ _
  exact ⟨h1 optMarker D, h1 bandsMarker D, h1 optMarker D,
    h1 bandsMarker (remove_optimization_result_section D)⟩
